import Mathlib

/-!
# email-list: the gRPC adapter of the subscriber registry

A shallow embedding of `src/grpcapi/grpcapi.go`.

* Go's `int64` values are integers of `Int`; arithmetic that can overflow is
  wrapped with `wrapInt64`.
* A Go pointer that may be `nil` is an `Option`.
* A Go `(value, error)` result is a pair whose second component is an
  `Option GoError` (`none` is Go's `nil` error).
* The package `email-list/edb` (the Store) is not part of the sources at hand:
  its five functions are the fields of `Store`, a parameter of every handler.
  Every call made to it is recorded in `World.calls`.
* The `log.Printf` line that opens every handler is advisory and is left out.
-/

namespace Grpcapi

/-! ## Machine integers -/

/-- Wrap-around of Go's `int64` arithmetic: the representative of `x` modulo
`2^64` in the signed 64-bit range. -/
def wrapInt64 (x : Int) : Int :=
  (x + 9223372036854775808) % 18446744073709551616 - 9223372036854775808

/-- The values of a Go `int64`. -/
def isInt64 (x : Int) : Prop :=
  -9223372036854775808 ≤ x ∧ x < 9223372036854775808

instance (x : Int) : Decidable (isInt64 x) := by
  unfold isInt64; infer_instance

/-- Conversion `int32(x)` of an `int64`: the low 32 bits, signed. -/
def toInt32 (x : Int) : Int :=
  (x + 2147483648) % 4294967296 - 2147483648

/-- Conversion `uint64(x)` of a signed integer: its residue modulo `2^64`. -/
def toUint64 (x : Int) : Nat :=
  (x % 18446744073709551616).toNat

/-- Conversion `int64(x)` of a `uint64`. -/
def ofUint64 (x : Nat) : Int :=
  wrapInt64 (x : Int)

/-! ## Go standard library: `time.Time`, `time.Unix` and `Time.Unix` -/

/-- The `loc` field of a Go `time.Time`: a nil pointer (UTC) or a location. -/
inductive Location where
  | nilLoc
  | localLoc
  deriving DecidableEq, Repr

/-- Go's `time.Time`: `wall` is a `uint64`, `ext` an `int64`. -/
structure Time where
  wall : Nat
  ext : Int
  loc : Location
  deriving DecidableEq, Repr

/-- Seconds per day, `secondsPerDay` of Go's `time` package. -/
def secondsPerDay : Int := 86400

/-- Go's `unixToInternal`: seconds from year 1 to 1970. -/
def unixToInternal : Int :=
  (1969 * 365 + 1969 / 4 - 1969 / 100 + 1969 / 400) * secondsPerDay

/-- Go's `internalToUnix`. -/
def internalToUnix : Int := -unixToInternal

/-- Go's `wallToInternal`: seconds from year 1 to 1885. -/
def wallToInternal : Int :=
  (1884 * 365 + 1884 / 4 - 1884 / 100 + 1884 / 400) * secondsPerDay

/-- Go's `hasMonotonic = 1 << 63`, the top bit of `wall`. -/
def hasMonotonic : Nat := 2 ^ 63

/-- Go's `nsecShift`. -/
def nsecShift : Nat := 30

/-- Go's `unixTime(sec, nsec)`: `Time{uint64(nsec), sec + unixToInternal, Local}`. -/
def unixTime (sec : Int) (nsec : Int) : Time :=
  { wall := toUint64 nsec, ext := wrapInt64 (sec + unixToInternal), loc := Location.localLoc }

/-- Go's `time.Unix(sec, nsec)`: nanoseconds outside `[0, 1e9)` are carried
into the seconds, then `unixTime(sec, int32(nsec))`. -/
def timeUnix (sec : Int) (nsec : Int) : Time :=
  if nsec < 0 ∨ nsec ≥ 1000000000 then
    let n := Int.tdiv nsec 1000000000
    let sec1 := wrapInt64 (sec + n)
    let nsec1 := wrapInt64 (nsec - wrapInt64 (n * 1000000000))
    if nsec1 < 0 then
      unixTime (wrapInt64 (sec1 - 1)) (toInt32 (wrapInt64 (nsec1 + 1000000000)))
    else
      unixTime sec1 (toInt32 nsec1)
  else
    unixTime sec (toInt32 nsec)

/-- Go's `(*Time).sec`: seconds since year 1. With the monotonic bit set the
seconds are the 33 bits of `wall` above the nanoseconds
(`int64(t.wall << 1 >> (nsecShift + 1))`), otherwise `ext`. -/
def Time.sec (t : Time) : Int :=
  if t.wall / hasMonotonic % 2 ≠ 0 then
    wrapInt64 (wallToInternal + ofUint64 ((t.wall * 2 % 2 ^ 64) / 2 ^ (nsecShift + 1)))
  else
    t.ext

/-- Go's `Time.Unix()`: `t.sec() + internalToUnix`. -/
def Time.Unix (t : Time) : Int :=
  wrapInt64 (t.sec + internalToUnix)

/-! ## Records -/

/-- Go's `error` values (non-nil). -/
structure GoError where
  msg : String
  deriving DecidableEq, Repr

/-- A run-time fault of the Go program (a `panic`). -/
inductive GoPanic where
  | nilPointerDereference
  deriving DecidableEq, Repr

/-- The wire record `pb.EmailEntry`, as `grpcapi.go` reads and writes its
fields: `Id` and `ConfirmedAt` are `int64`. -/
structure PbEmailEntry where
  Id : Int
  Email : String
  ConfirmedAt : Int
  OptOut : Bool
  deriving DecidableEq, Repr

/-- The canonical record `edb.EmailEntry`, as `grpcapi.go` reads and writes
its fields. -/
structure EdbEmailEntry where
  Id : Int
  Email : String
  ConfirmedAt : Time
  OptOut : Bool
  deriving DecidableEq, Repr

/-- Function `pbEntryToEdbEntry(pbEntry *pb.EmailEntry)`: reading `pbEntry.ConfirmedAt`
through a nil pointer is a fault. -/
def pbEntryToEdbEntry (pbEntry : Option PbEmailEntry) : Except GoPanic EdbEmailEntry :=
  match pbEntry with
  | none => Except.error GoPanic.nilPointerDereference
  | some p =>
    let t := timeUnix p.ConfirmedAt 0
    Except.ok { Id := p.Id, Email := p.Email, ConfirmedAt := t, OptOut := p.OptOut }

/-- Function `edbEntryToPbEntry(edbEntry *edb.EmailEntry)`. Both call sites pass a
pointer that is not nil (line 48 after the nil test of line 44, line 72 the
address of a slice element), so the argument is the record pointed to. -/
def edbEntryToPbEntry (edbEntry : EdbEmailEntry) : PbEmailEntry :=
  { Id := edbEntry.Id, Email := edbEntry.Email,
    ConfirmedAt := edbEntry.ConfirmedAt.Unix, OptOut := edbEntry.OptOut }

/-! ## The Store (package `edb`) as a parameter -/

/-- Type `edb.GetEmailBatchQueryParams`, with the two fields `grpcapi.go` sets. -/
structure GetEmailBatchQueryParams where
  Page : Int
  Count : Int
  deriving DecidableEq, Repr

/-- The five functions of package `edb` that `grpcapi.go` calls, over a
database state `σ`. Each takes the state behind the handle `*sql.DB` and
returns its Go results together with the state it leaves. -/
structure Store (σ : Type) where
  ReadEmail : σ → String → (Option EdbEmailEntry × Option GoError) × σ
  GetEmailBatch : σ → GetEmailBatchQueryParams → (List EdbEmailEntry × Option GoError) × σ
  CreateEmail : σ → String → Option GoError × σ
  UpdateEmail : σ → EdbEmailEntry → Option GoError × σ
  DeleteEmail : σ → String → Option GoError × σ

/-- One call made to the Store, with its arguments. -/
inductive StoreCall where
  | ReadEmail (email : String)
  | GetEmailBatch (params : GetEmailBatchQueryParams)
  | CreateEmail (email : String)
  | UpdateEmail (entry : EdbEmailEntry)
  | DeleteEmail (email : String)
  deriving DecidableEq, Repr

/-- The database behind `s.db` and the Store calls made so far, oldest first. -/
structure World (σ : Type) where
  db : σ
  calls : List StoreCall

/-- The call `edb.ReadEmail(db, email)`. -/
def edbReadEmail {σ : Type} (st : Store σ) (w : World σ) (email : String) :
    (Option EdbEmailEntry × Option GoError) × World σ :=
  let r := st.ReadEmail w.db email
  (r.1, { db := r.2, calls := w.calls ++ [StoreCall.ReadEmail email] })

/-- The call `edb.GetEmailBatch(db, params)`. -/
def edbGetEmailBatch {σ : Type} (st : Store σ) (w : World σ) (params : GetEmailBatchQueryParams) :
    (List EdbEmailEntry × Option GoError) × World σ :=
  let r := st.GetEmailBatch w.db params
  (r.1, { db := r.2, calls := w.calls ++ [StoreCall.GetEmailBatch params] })

/-- The call `edb.CreateEmail(db, email)`. -/
def edbCreateEmail {σ : Type} (st : Store σ) (w : World σ) (email : String) :
    Option GoError × World σ :=
  let r := st.CreateEmail w.db email
  (r.1, { db := r.2, calls := w.calls ++ [StoreCall.CreateEmail email] })

/-- The call `edb.UpdateEmail(db, entry)`. -/
def edbUpdateEmail {σ : Type} (st : Store σ) (w : World σ) (entry : EdbEmailEntry) :
    Option GoError × World σ :=
  let r := st.UpdateEmail w.db entry
  (r.1, { db := r.2, calls := w.calls ++ [StoreCall.UpdateEmail entry] })

/-- The call `edb.DeleteEmail(db, email)`. -/
def edbDeleteEmail {σ : Type} (st : Store σ) (w : World σ) (email : String) :
    Option GoError × World σ :=
  let r := st.DeleteEmail w.db email
  (r.1, { db := r.2, calls := w.calls ++ [StoreCall.DeleteEmail email] })

/-! ## Requests and responses -/

/-- Message `pb.GetEmailRequest`. -/
structure GetEmailRequest where
  EmailAddr : String
  deriving DecidableEq, Repr

/-- Message `pb.GetEmailBatchRequest`; `int(req.Page)` and `int(req.Count)` keep the
value on a 64-bit platform. -/
structure GetEmailBatchRequest where
  Page : Int
  Count : Int
  deriving DecidableEq, Repr

/-- Message `pb.CreateEmailRequest`. -/
structure CreateEmailRequest where
  EmailAddr : String
  deriving DecidableEq, Repr

/-- Message `pb.UpdateEmailRequest`: `EmailEntry` is a pointer, nil when the message
carries no record. -/
structure UpdateEmailRequest where
  EmailEntry : Option PbEmailEntry
  deriving DecidableEq, Repr

/-- Message `pb.DeleteEmailRequest`. -/
structure DeleteEmailRequest where
  EmailAddr : String
  deriving DecidableEq, Repr

/-- Message `pb.EmailResponse`: `EmailEntry` is nil when the response carries no record. -/
structure EmailResponse where
  EmailEntry : Option PbEmailEntry
  deriving DecidableEq, Repr

/-- Message `pb.GetEmailBatchResponse`. -/
structure GetEmailBatchResponse where
  EmailEntries : List PbEmailEntry
  deriving DecidableEq, Repr

/-! ## The handlers of `grpcapi.go` -/

/-- Function `emailResponse(db, email)`, lines 39-51. -/
def emailResponse {σ : Type} (st : Store σ) (w : World σ) (email : String) :
    (EmailResponse × Option GoError) × World σ :=
  let r := edbReadEmail st w email
  match r.1.2 with
  | some err => (({ EmailEntry := none }, some err), r.2)
  | none =>
    match r.1.1 with
    | none => (({ EmailEntry := none }, none), r.2)
    | some entry =>
      let res := edbEntryToPbEntry entry
      (({ EmailEntry := some res }, none), r.2)

/-- Handler `(*MailServer).GetEmail`, lines 53-56. -/
def MailServer.GetEmail {σ : Type} (st : Store σ) (w : World σ) (req : GetEmailRequest) :
    (EmailResponse × Option GoError) × World σ :=
  emailResponse st w req.EmailAddr

/-- The loop of lines 70-74: every record of the page is converted and
appended, in order. -/
def convertEntries (edbEntries : List EdbEmailEntry) : List PbEmailEntry :=
  edbEntries.foldl (fun pbEntries e => pbEntries ++ [edbEntryToPbEntry e]) []

/-- Handler `(*MailServer).GetEmailBatch`, lines 58-77. -/
def MailServer.GetEmailBatch {σ : Type} (st : Store σ) (w : World σ)
    (req : GetEmailBatchRequest) : (GetEmailBatchResponse × Option GoError) × World σ :=
  let params : GetEmailBatchQueryParams := { Page := req.Page, Count := req.Count }
  let r := edbGetEmailBatch st w params
  match r.1.2 with
  | some err => (({ EmailEntries := [] }, some err), r.2)
  | none => (({ EmailEntries := convertEntries r.1.1 }, none), r.2)

/-- Handler `(*MailServer).CreateEmail`, lines 79-88. -/
def MailServer.CreateEmail {σ : Type} (st : Store σ) (w : World σ) (req : CreateEmailRequest) :
    (EmailResponse × Option GoError) × World σ :=
  let r := edbCreateEmail st w req.EmailAddr
  match r.1 with
  | some err => (({ EmailEntry := none }, some err), r.2)
  | none => emailResponse st r.2 req.EmailAddr

/-- Handler `(*MailServer).UpdateEmail`, lines 90-101. The conversion of line 93 comes
first: when it faults, the handler does not return and the world is as it was. -/
def MailServer.UpdateEmail {σ : Type} (st : Store σ) (w : World σ) (req : UpdateEmailRequest) :
    Except GoPanic (EmailResponse × Option GoError) × World σ :=
  match pbEntryToEdbEntry req.EmailEntry with
  | Except.error p => (Except.error p, w)
  | Except.ok entry =>
    let r := edbUpdateEmail st w entry
    match r.1 with
    | some err => (Except.ok ({ EmailEntry := none }, some err), r.2)
    | none =>
      let q := emailResponse st r.2 entry.Email
      (Except.ok q.1, q.2)

/-- Handler `(*MailServer).DeleteEmail`, lines 103-112. -/
def MailServer.DeleteEmail {σ : Type} (st : Store σ) (w : World σ) (req : DeleteEmailRequest) :
    (EmailResponse × Option GoError) × World σ :=
  let r := edbDeleteEmail st w req.EmailAddr
  match r.1 with
  | some err => (({ EmailEntry := none }, some err), r.2)
  | none => emailResponse st r.2 req.EmailAddr

/-! ## The Store contract of the specification -/

/-- Modelled from the spec: the Store contract of section 6 for package `edb`,
which is not among the sources. `view s a` is the record the Store in state
`s` holds for address `a`, `unset` the default of `confirmedAt`.
`read(email) -> Record?` returns the held record and absence is not an error;
neither read has a side effect on the records ("No record is ever implicitly
created or removed as a side effect of read or batch-read");
`create(email)` "inserts a new record with default confirmation/opt-out state";
`replace(record)` is a "full overwrite" of the record the key `email` resolves
to ("update-target resolution" is by `email`), and on an address the Store
holds it succeeds; after `delete(email)` "the record no longer appears in any
read". Reads do not fail. -/
structure StoreContract {σ : Type} (st : Store σ) (view : σ → String → Option EdbEmailEntry)
    (unset : Time) : Prop where
  read_result : ∀ s a, (st.ReadEmail s a).1 = (view s a, none)
  read_keeps : ∀ s a b, view (st.ReadEmail s a).2 b = view s b
  page_keeps : ∀ s p b, view (st.GetEmailBatch s p).2 b = view s b
  create_new : ∀ s a, view s a = none → (st.CreateEmail s a).1 = none →
    ∃ r, view (st.CreateEmail s a).2 a = some r ∧
      r.Email = a ∧ r.ConfirmedAt = unset ∧ r.OptOut = false
  replace_existing : ∀ s e, view s e.Email ≠ none →
    (st.UpdateEmail s e).1 = none ∧
    ∃ r, view (st.UpdateEmail s e).2 e.Email = some r ∧
      r.Email = e.Email ∧ r.ConfirmedAt = e.ConfirmedAt ∧ r.OptOut = e.OptOut
  delete_removes : ∀ s a, (st.DeleteEmail s a).1 = none → view (st.DeleteEmail s a).2 a = none

/-- Modelled from the spec: the offset arithmetic of the Store's page read in
package `edb`, which is not among the sources: the slice of `records` at
`offset = page × count` of length at most `count`. -/
def pageSlice (records : List EdbEmailEntry) (page count : Int) : List EdbEmailEntry :=
  (records.drop (page * count).toNat).take count.toNat

/-- Modelled from the spec: `readPage(page, count) -> Record[]` of the Store
contract, for package `edb`, which is not among the sources. `listing s` is the
full ordered listing of the Store in state `s`; "the Store is responsible for
the offset arithmetic (`offset = page × count`) and for returning fewer than
`count` records on the last page", and a page read leaves the listing as it is. -/
structure PagedStore {σ : Type} (st : Store σ) (listing : σ → List EdbEmailEntry) : Prop where
  page_result : ∀ s page count, 0 ≤ page → 0 < count →
    (st.GetEmailBatch s { Page := page, Count := count }).1 =
      (pageSlice (listing s) page count, none)
  page_keeps : ∀ s p, listing (st.GetEmailBatch s p).2 = listing s

/-- A client that asks for the pages `pages` one after the other with page
size `count` and concatenates the records of the responses. -/
def collectPages {σ : Type} (st : Store σ) (count : Int) :
    World σ → List Nat → List PbEmailEntry × World σ
  | w, [] => ([], w)
  | w, p :: ps =>
    let r := MailServer.GetEmailBatch st w { Page := (p : Int), Count := count }
    let rest := collectPages st count r.2 ps
    (r.1.1.EmailEntries ++ rest.1, rest.2)

/-- The records of the pages `pages` of a listing, one page after the other. -/
def slicesFrom (records : List EdbEmailEntry) (count : Int) : List Nat → List EdbEmailEntry
  | [] => []
  | p :: ps => pageSlice records (p : Int) count ++ slicesFrom records count ps

/-! ## A reference Store -/

/-- Modelled from the spec: the state of a Store standing in for package `edb`,
which is not among the sources: its records in insertion order and the
identifier the next created record gets ("`id`: opaque identifier assigned by
the Store"). -/
structure ModelDb where
  rows : List EdbEmailEntry
  nextId : Int
  deriving DecidableEq, Repr

/-- Modelled from the spec: the "unset" value of `confirmedAt` in the reference
Store. The spec names no value; Go's zero `time.Time` is taken. -/
def unsetTime : Time := { wall := 0, ext := 0, loc := Location.nilLoc }

/-- Modelled from the spec: a Store after the contract of section 6, standing
in for package `edb`, which is not among the sources. Records are keyed by
`email`; `create` "fails if address already exists" and otherwise inserts a
record with default state; `replace` overwrites the mutable fields of the
record with the supplied address (and changes nothing when there is none);
`delete` removes by address with no error when already absent; `readPage`
returns the slice at `offset = page × count`. -/
def modelStore : Store ModelDb where
  ReadEmail s email := ((s.rows.find? (fun r => r.Email == email), none), s)
  GetEmailBatch s params := ((pageSlice s.rows params.Page params.Count, none), s)
  CreateEmail s email :=
    if s.rows.any (fun r => r.Email == email) then
      (some { msg := "address already exists" }, s)
    else
      (none, { rows := s.rows ++ [{ Id := s.nextId, Email := email,
                                    ConfirmedAt := unsetTime, OptOut := false }],
               nextId := s.nextId + 1 })
  UpdateEmail s entry :=
    (none, { s with rows := s.rows.map (fun r =>
      if r.Email == entry.Email then
        { r with ConfirmedAt := entry.ConfirmedAt, OptOut := entry.OptOut }
      else r) })
  DeleteEmail s email := (none, { s with rows := s.rows.filter (fun r => r.Email != email) })

/-- Modelled from the spec: the record the reference Store holds for an
address, `email` being "the external unique key used for lookup". -/
def modelView (s : ModelDb) (email : String) : Option EdbEmailEntry :=
  s.rows.find? (fun r => r.Email == email)

/-- A reference Store that holds three records, with no call made yet. -/
def sampleWorld : World ModelDb :=
  { db := { rows := [⟨1, "a@example.com", timeUnix 1600000000 0, false⟩,
                     ⟨2, "b@example.com", unsetTime, false⟩,
                     ⟨3, "c@example.com", timeUnix 1650000000 0, true⟩],
            nextId := 4 },
    calls := [] }

/-- The empty reference Store, with no call made yet. -/
def emptyWorld : World ModelDb := { db := { rows := [], nextId := 1 }, calls := [] }

/-- A Store whose reads always fail with the error `e`, and whose mutations
fail with `e` unless its state is `true`. -/
def failingStore (e : GoError) : Store Bool where
  ReadEmail s _ := ((none, some e), s)
  GetEmailBatch s _ := (([], some e), s)
  CreateEmail s _ := (if s then none else some e, s)
  UpdateEmail s _ := (if s then none else some e, s)
  DeleteEmail s _ := (if s then none else some e, s)

/-! ## Timestamp fidelity -/

theorem wrapInt64_of_isInt64 (x : Int) (h : isInt64 x) : wrapInt64 x = x := by
  unfold isInt64 at h
  unfold wrapInt64
  omega

theorem wrapInt64_isInt64 (x : Int) : isInt64 (wrapInt64 x) := by
  unfold isInt64 wrapInt64
  omega

theorem unixToInternal_eq : unixToInternal = 62135596800 := by
  decide

theorem timeUnix_zero_nsec (sec : Int) :
    timeUnix sec 0 =
      { wall := 0, ext := wrapInt64 (sec + unixToInternal), loc := Location.localLoc } := by
  simp [timeUnix, unixTime, toInt32, toUint64]

theorem timeUnix_Unix (t : Int) (h : isInt64 t) : (timeUnix t 0).Unix = t := by
  rw [timeUnix_zero_nsec]
  unfold isInt64 at h
  simp only [Time.Unix, Time.sec, hasMonotonic, internalToUnix, unixToInternal_eq]
  norm_num
  unfold wrapInt64
  omega

/-! ## The follow-up read -/

theorem emailResponse_world {σ : Type} (st : Store σ) (w : World σ) (email : String) :
    (emailResponse st w email).2 =
      { db := (st.ReadEmail w.db email).2, calls := w.calls ++ [StoreCall.ReadEmail email] } := by
  unfold emailResponse edbReadEmail
  dsimp only
  split
  · rfl
  · split <;> rfl

theorem emailResponse_of_error {σ : Type} (st : Store σ) (w : World σ) (email : String)
    (e : GoError) (h : (st.ReadEmail w.db email).1.2 = some e) :
    (emailResponse st w email).1 = ({ EmailEntry := none }, some e) := by
  unfold emailResponse edbReadEmail
  dsimp only
  rw [h]

theorem emailResponse_of_absent {σ : Type} (st : Store σ) (w : World σ) (email : String)
    (h : (st.ReadEmail w.db email).1 = (none, none)) :
    (emailResponse st w email).1 = ({ EmailEntry := none }, none) := by
  unfold emailResponse edbReadEmail
  dsimp only
  rw [h]

theorem emailResponse_of_present {σ : Type} (st : Store σ) (w : World σ) (email : String)
    (r : EdbEmailEntry) (h : (st.ReadEmail w.db email).1 = (some r, none)) :
    (emailResponse st w email).1 = ({ EmailEntry := some (edbEntryToPbEntry r) }, none) := by
  unfold emailResponse edbReadEmail
  dsimp only
  rw [h]

/-! ## C1: the conversions are inverse to each other -/

/-- C1: for every signed 64-bit seconds value `t`, `time.Unix(t, 0).Unix()` is
`t`; and for every wire record `e` (its `confirmedAt` a signed 64-bit value),
`pbEntryToEdbEntry` does not fault on `e` and `edbEntryToPbEntry` of its result
is `e` again, in all four fields. -/
theorem entry_roundtrip (t : Int) (e : PbEmailEntry) (ht : isInt64 t)
    (he : isInt64 e.ConfirmedAt) :
    (timeUnix t 0).Unix = t ∧
    (pbEntryToEdbEntry (some e)).map edbEntryToPbEntry = Except.ok e := by
  refine ⟨timeUnix_Unix t ht, ?_⟩
  simp only [pbEntryToEdbEntry, Except.map, edbEntryToPbEntry, timeUnix_Unix _ he]

/-- C1 at `t = -2^63` and at a record confirmed at `1700000000`. -/
theorem entry_roundtrip_witness :
    (timeUnix (-9223372036854775808) 0).Unix = -9223372036854775808 ∧
    (pbEntryToEdbEntry (some ⟨7, "a@example.com", 1700000000, true⟩)).map edbEntryToPbEntry =
      Except.ok ⟨7, "a@example.com", 1700000000, true⟩ :=
  entry_roundtrip (-9223372036854775808) ⟨7, "a@example.com", 1700000000, true⟩
    (by decide) (by decide)

/-! ## C2: absence is not an error -/

/-- C2: when the Store's read of the requested address returns no record and
no error, `GetEmail` returns a response with no record payload and no error,
after that one read. -/
theorem getEmail_absent {σ : Type} (st : Store σ) (w : World σ) (req : GetEmailRequest)
    (h : (st.ReadEmail w.db req.EmailAddr).1 = (none, none)) :
    (MailServer.GetEmail st w req).1 = ({ EmailEntry := none }, none) ∧
    (MailServer.GetEmail st w req).2.calls = w.calls ++ [StoreCall.ReadEmail req.EmailAddr] := by
  unfold MailServer.GetEmail
  rw [emailResponse_of_absent st w _ h, emailResponse_world]
  exact ⟨rfl, rfl⟩

/-- C2 on the empty reference Store: an address never created. -/
theorem getEmail_absent_witness :
    (MailServer.GetEmail modelStore emptyWorld { EmailAddr := "nobody@example.com" }).1 =
      ({ EmailEntry := none }, none) ∧
    (MailServer.GetEmail modelStore emptyWorld { EmailAddr := "nobody@example.com" }).2.calls =
      emptyWorld.calls ++ [StoreCall.ReadEmail "nobody@example.com"] :=
  getEmail_absent modelStore emptyWorld { EmailAddr := "nobody@example.com" } rfl

/-! ## C3: page and count are not validated -/

/-- C3, refuted: on the empty reference Store the batch request with
`page = -1` and `count = 0` is not rejected (the error is nil) and the Store's
page read is invoked with these very values. -/
theorem getEmailBatch_invalid_reaches_store :
    (MailServer.GetEmailBatch modelStore emptyWorld ⟨-1, 0⟩).1 = (⟨[]⟩, none) ∧
    (MailServer.GetEmailBatch modelStore emptyWorld ⟨-1, 0⟩).2.calls =
      [StoreCall.GetEmailBatch ⟨-1, 0⟩] := by
  constructor <;> rfl

theorem getEmailBatch_world {σ : Type} (st : Store σ) (w : World σ) (req : GetEmailBatchRequest) :
    (MailServer.GetEmailBatch st w req).2 =
      { db := (st.GetEmailBatch w.db ⟨req.Page, req.Count⟩).2,
        calls := w.calls ++ [StoreCall.GetEmailBatch ⟨req.Page, req.Count⟩] } := by
  unfold MailServer.GetEmailBatch edbGetEmailBatch
  dsimp only
  split <;> rfl

theorem getEmailBatch_error {σ : Type} (st : Store σ) (w : World σ) (req : GetEmailBatchRequest) :
    (MailServer.GetEmailBatch st w req).1.2 =
      (st.GetEmailBatch w.db ⟨req.Page, req.Count⟩).1.2 := by
  unfold MailServer.GetEmailBatch edbGetEmailBatch
  dsimp only
  split
  · next err h => exact h.symm
  · next h => exact h.symm

/-- C3, amended: for every batch request with `page < 0` or `count <= 0`,
`GetEmailBatch` makes no check of its own: it invokes the Store's page read
exactly once, with `page` and `count` unchanged, and its error is the error of
that Store call (nil when the Store returns none). -/
theorem getEmailBatch_invalid_passed_on {σ : Type} (st : Store σ) (w : World σ)
    (req : GetEmailBatchRequest) (h : req.Page < 0 ∨ req.Count ≤ 0) :
    (MailServer.GetEmailBatch st w req).2.calls =
      w.calls ++ [StoreCall.GetEmailBatch ⟨req.Page, req.Count⟩] ∧
    (MailServer.GetEmailBatch st w req).2.db =
      (st.GetEmailBatch w.db ⟨req.Page, req.Count⟩).2 ∧
    (MailServer.GetEmailBatch st w req).1.2 =
      (st.GetEmailBatch w.db ⟨req.Page, req.Count⟩).1.2 := by
  have _ := h
  rw [getEmailBatch_world, getEmailBatch_error]
  exact ⟨rfl, rfl, rfl⟩

/-- C3, amended, at `page = -3`, `count = 10` on a Store that fails. -/
theorem getEmailBatch_invalid_passed_on_witness :
    (MailServer.GetEmailBatch (failingStore ⟨"disk"⟩) ⟨false, []⟩ ⟨-3, 10⟩).2.calls =
      [] ++ [StoreCall.GetEmailBatch ⟨-3, 10⟩] ∧
    (MailServer.GetEmailBatch (failingStore ⟨"disk"⟩) ⟨false, []⟩ ⟨-3, 10⟩).2.db = false ∧
    (MailServer.GetEmailBatch (failingStore ⟨"disk"⟩) ⟨false, []⟩ ⟨-3, 10⟩).1.2 =
      some ⟨"disk"⟩ :=
  getEmailBatch_invalid_passed_on (failingStore ⟨"disk"⟩) ⟨false, []⟩ ⟨-3, 10⟩
    (Or.inl (by decide))

/-! ## C4: the response of a mutation is the follow-up read -/

theorem createEmail_of_ok {σ : Type} (st : Store σ) (w : World σ) (req : CreateEmailRequest)
    (h : (st.CreateEmail w.db req.EmailAddr).1 = none) :
    MailServer.CreateEmail st w req =
      emailResponse st (edbCreateEmail st w req.EmailAddr).2 req.EmailAddr := by
  unfold MailServer.CreateEmail
  have h1 : (edbCreateEmail st w req.EmailAddr).1 = none := h
  dsimp only
  rw [h1]

theorem deleteEmail_of_ok {σ : Type} (st : Store σ) (w : World σ) (req : DeleteEmailRequest)
    (h : (st.DeleteEmail w.db req.EmailAddr).1 = none) :
    MailServer.DeleteEmail st w req =
      emailResponse st (edbDeleteEmail st w req.EmailAddr).2 req.EmailAddr := by
  unfold MailServer.DeleteEmail
  have h1 : (edbDeleteEmail st w req.EmailAddr).1 = none := h
  dsimp only
  rw [h1]

theorem pbEntryToEdbEntry_ok_email (entry : PbEmailEntry) (e : EdbEmailEntry)
    (h : pbEntryToEdbEntry (some entry) = Except.ok e) :
    e.Email = entry.Email ∧ e.Id = entry.Id ∧ e.OptOut = entry.OptOut ∧
      e.ConfirmedAt = timeUnix entry.ConfirmedAt 0 := by
  unfold pbEntryToEdbEntry at h
  cases h
  exact ⟨rfl, rfl, rfl, rfl⟩

theorem updateEmail_of_ok {σ : Type} (st : Store σ) (w : World σ) (entry : PbEmailEntry)
    (e : EdbEmailEntry) (hE : pbEntryToEdbEntry (some entry) = Except.ok e)
    (h : (st.UpdateEmail w.db e).1 = none) :
    MailServer.UpdateEmail st w ⟨some entry⟩ =
      (Except.ok (emailResponse st (edbUpdateEmail st w e).2 entry.Email).1,
        (emailResponse st (edbUpdateEmail st w e).2 entry.Email).2) := by
  have hm := (pbEntryToEdbEntry_ok_email entry e hE).1
  unfold MailServer.UpdateEmail
  have h1 : (edbUpdateEmail st w e).1 = none := h
  dsimp only
  rw [hE]
  dsimp only
  rw [h1, hm]

theorem updateEmail_of_error {σ : Type} (st : Store σ) (w : World σ) (entry : PbEmailEntry)
    (e : EdbEmailEntry) (err : GoError) (hE : pbEntryToEdbEntry (some entry) = Except.ok e)
    (h : (st.UpdateEmail w.db e).1 = some err) :
    MailServer.UpdateEmail st w ⟨some entry⟩ =
      (Except.ok ({ EmailEntry := none }, some err), (edbUpdateEmail st w e).2) := by
  unfold MailServer.UpdateEmail
  have h1 : (edbUpdateEmail st w e).1 = some err := h
  dsimp only
  rw [hE]
  dsimp only
  rw [h1]

/-- C4: for each of `CreateEmail`, `UpdateEmail` and `DeleteEmail` on its own,
for every request and every world in which the Store mutation of that
operation succeeds, the result of the operation (response, error and world) is
the result of `GetEmail` for the request address (for update, the email of the
supplied record) run in the world the mutation leaves. The response is not
built from the request: an update after which the Store's read finds no record
returns no record, and one after which it finds `r` returns the wire form of
`r`, whatever the request said. -/
theorem mutation_response_is_reread {σ : Type} (st : Store σ) (w : World σ) :
    (∀ create : CreateEmailRequest, (st.CreateEmail w.db create.EmailAddr).1 = none →
      MailServer.CreateEmail st w create =
        MailServer.GetEmail st (edbCreateEmail st w create.EmailAddr).2 ⟨create.EmailAddr⟩) ∧
    (∀ (entry : PbEmailEntry) (e : EdbEmailEntry),
      pbEntryToEdbEntry (some entry) = Except.ok e → (st.UpdateEmail w.db e).1 = none →
      MailServer.UpdateEmail st w ⟨some entry⟩ =
        (Except.ok (MailServer.GetEmail st (edbUpdateEmail st w e).2 ⟨entry.Email⟩).1,
          (MailServer.GetEmail st (edbUpdateEmail st w e).2 ⟨entry.Email⟩).2)) ∧
    (∀ delete : DeleteEmailRequest, (st.DeleteEmail w.db delete.EmailAddr).1 = none →
      MailServer.DeleteEmail st w delete =
        MailServer.GetEmail st (edbDeleteEmail st w delete.EmailAddr).2 ⟨delete.EmailAddr⟩) ∧
    (∀ (entry : PbEmailEntry) (e : EdbEmailEntry),
      pbEntryToEdbEntry (some entry) = Except.ok e → (st.UpdateEmail w.db e).1 = none →
      (st.ReadEmail (st.UpdateEmail w.db e).2 entry.Email).1 = (none, none) →
      (MailServer.UpdateEmail st w ⟨some entry⟩).1 =
        Except.ok ({ EmailEntry := none }, none)) ∧
    (∀ (entry : PbEmailEntry) (e r : EdbEmailEntry),
      pbEntryToEdbEntry (some entry) = Except.ok e → (st.UpdateEmail w.db e).1 = none →
      (st.ReadEmail (st.UpdateEmail w.db e).2 entry.Email).1 = (some r, none) →
      (MailServer.UpdateEmail st w ⟨some entry⟩).1 =
        Except.ok ({ EmailEntry := some (edbEntryToPbEntry r) }, none)) := by
  refine ⟨fun create hC => createEmail_of_ok st w create hC,
    fun entry e hE hU => updateEmail_of_ok st w entry e hE hU,
    fun delete hD => deleteEmail_of_ok st w delete hD, ?_, ?_⟩
  · intro entry e hE hU hN
    rw [updateEmail_of_ok st w entry e hE hU]
    exact congrArg Except.ok (emailResponse_of_absent st _ _ hN)
  · intro entry e r hE hU hR
    rw [updateEmail_of_ok st w entry e hE hU]
    exact congrArg Except.ok (emailResponse_of_present st _ _ r hR)

/-- C4 on the reference Store, one operation at a time: the first create on
the empty Store is the follow-up read (and that read finds the record the
Store made, with the Store's identifier); an update for an address the Store
does not hold succeeds and returns no record, not the submitted one; an
update of a held address returns the held identifier `1`, not the submitted
`99`; a delete of a held address is the follow-up read. -/
theorem mutation_response_is_reread_witness :
    (MailServer.CreateEmail modelStore emptyWorld ⟨"a@example.com"⟩ =
      MailServer.GetEmail modelStore (edbCreateEmail modelStore emptyWorld "a@example.com").2
        ⟨"a@example.com"⟩ ∧
     (MailServer.CreateEmail modelStore emptyWorld ⟨"a@example.com"⟩).1 =
      (⟨some ⟨1, "a@example.com", -62135596800, false⟩⟩, none)) ∧
    (MailServer.UpdateEmail modelStore emptyWorld
      ⟨some ⟨0, "ghost@example.com", 5, true⟩⟩).1 = Except.ok (⟨none⟩, none) ∧
    (MailServer.UpdateEmail modelStore sampleWorld
      ⟨some ⟨99, "a@example.com", 5, true⟩⟩).1 =
        Except.ok (⟨some ⟨1, "a@example.com", 5, true⟩⟩, none) ∧
    MailServer.DeleteEmail modelStore sampleWorld ⟨"a@example.com"⟩ =
      MailServer.GetEmail modelStore (edbDeleteEmail modelStore sampleWorld "a@example.com").2
        ⟨"a@example.com"⟩ :=
  ⟨⟨(mutation_response_is_reread modelStore emptyWorld).1 ⟨"a@example.com"⟩ rfl, by decide⟩,
    (mutation_response_is_reread modelStore emptyWorld).2.2.2.1
      ⟨0, "ghost@example.com", 5, true⟩ ⟨0, "ghost@example.com", timeUnix 5 0, true⟩
      rfl rfl rfl,
    (mutation_response_is_reread modelStore sampleWorld).2.2.2.2
      ⟨99, "a@example.com", 5, true⟩ ⟨99, "a@example.com", timeUnix 5 0, true⟩
      ⟨1, "a@example.com", timeUnix 5 0, true⟩ rfl rfl rfl,
    (mutation_response_is_reread modelStore sampleWorld).2.2.1 ⟨"a@example.com"⟩ rfl⟩

/-! ## C5: a Store failure is passed through -/

/-- C5: for each operation on its own, in every world: when the Store call of
the operation returns an error, the operation returns that error with a
response that carries no record, and the world shows exactly one Store call
more (no retry; for the mutations no follow-up read). The same holds when the
follow-up read of a mutation is the call that fails: two calls, the read's
error, no record. -/
theorem store_failure_passthrough {σ : Type} (st : Store σ) (w : World σ) :
    (∀ (get : GetEmailRequest) (eR : GoError),
      (st.ReadEmail w.db get.EmailAddr).1.2 = some eR →
      MailServer.GetEmail st w get =
        (({ EmailEntry := none }, some eR),
          { db := (st.ReadEmail w.db get.EmailAddr).2,
            calls := w.calls ++ [StoreCall.ReadEmail get.EmailAddr] })) ∧
    (∀ (batch : GetEmailBatchRequest) (eB : GoError),
      (st.GetEmailBatch w.db ⟨batch.Page, batch.Count⟩).1.2 = some eB →
      MailServer.GetEmailBatch st w batch =
        (({ EmailEntries := [] }, some eB),
          { db := (st.GetEmailBatch w.db ⟨batch.Page, batch.Count⟩).2,
            calls := w.calls ++ [StoreCall.GetEmailBatch ⟨batch.Page, batch.Count⟩] })) ∧
    (∀ (create : CreateEmailRequest) (eC : GoError),
      (st.CreateEmail w.db create.EmailAddr).1 = some eC →
      MailServer.CreateEmail st w create =
        (({ EmailEntry := none }, some eC),
          { db := (st.CreateEmail w.db create.EmailAddr).2,
            calls := w.calls ++ [StoreCall.CreateEmail create.EmailAddr] })) ∧
    (∀ (entry : PbEmailEntry) (e : EdbEmailEntry) (eU : GoError),
      pbEntryToEdbEntry (some entry) = Except.ok e → (st.UpdateEmail w.db e).1 = some eU →
      MailServer.UpdateEmail st w ⟨some entry⟩ =
        (Except.ok ({ EmailEntry := none }, some eU),
          { db := (st.UpdateEmail w.db e).2,
            calls := w.calls ++ [StoreCall.UpdateEmail e] })) ∧
    (∀ (delete : DeleteEmailRequest) (eD : GoError),
      (st.DeleteEmail w.db delete.EmailAddr).1 = some eD →
      MailServer.DeleteEmail st w delete =
        (({ EmailEntry := none }, some eD),
          { db := (st.DeleteEmail w.db delete.EmailAddr).2,
            calls := w.calls ++ [StoreCall.DeleteEmail delete.EmailAddr] })) ∧
    (∀ (create : CreateEmailRequest) (eF : GoError),
      (st.CreateEmail w.db create.EmailAddr).1 = none →
      (st.ReadEmail (st.CreateEmail w.db create.EmailAddr).2 create.EmailAddr).1.2 = some eF →
      (MailServer.CreateEmail st w create).1 = ({ EmailEntry := none }, some eF) ∧
      (MailServer.CreateEmail st w create).2.calls =
        w.calls ++ [StoreCall.CreateEmail create.EmailAddr,
          StoreCall.ReadEmail create.EmailAddr]) ∧
    (∀ (entry : PbEmailEntry) (e : EdbEmailEntry) (eF : GoError),
      pbEntryToEdbEntry (some entry) = Except.ok e → (st.UpdateEmail w.db e).1 = none →
      (st.ReadEmail (st.UpdateEmail w.db e).2 entry.Email).1.2 = some eF →
      (MailServer.UpdateEmail st w ⟨some entry⟩).1 =
        Except.ok ({ EmailEntry := none }, some eF) ∧
      (MailServer.UpdateEmail st w ⟨some entry⟩).2.calls =
        w.calls ++ [StoreCall.UpdateEmail e, StoreCall.ReadEmail entry.Email]) ∧
    (∀ (delete : DeleteEmailRequest) (eF : GoError),
      (st.DeleteEmail w.db delete.EmailAddr).1 = none →
      (st.ReadEmail (st.DeleteEmail w.db delete.EmailAddr).2 delete.EmailAddr).1.2 = some eF →
      (MailServer.DeleteEmail st w delete).1 = ({ EmailEntry := none }, some eF) ∧
      (MailServer.DeleteEmail st w delete).2.calls =
        w.calls ++ [StoreCall.DeleteEmail delete.EmailAddr,
          StoreCall.ReadEmail delete.EmailAddr]) := by
  refine ⟨?_, ?_, ?_, ?_, ?_, ?_, ?_, ?_⟩
  · intro get eR hR
    unfold MailServer.GetEmail
    exact Prod.ext (emailResponse_of_error st w _ eR hR) (emailResponse_world st w _)
  · intro batch eB hB
    refine Prod.ext ?_ (getEmailBatch_world st w batch)
    unfold MailServer.GetEmailBatch edbGetEmailBatch
    dsimp only
    rw [hB]
  · intro create eC hC
    unfold MailServer.CreateEmail
    have h1 : (edbCreateEmail st w create.EmailAddr).1 = some eC := hC
    dsimp only
    rw [h1]
    rfl
  · intro entry e eU hE hU
    rw [updateEmail_of_error st w entry e eU hE hU]
    rfl
  · intro delete eD hD
    unfold MailServer.DeleteEmail
    have h1 : (edbDeleteEmail st w delete.EmailAddr).1 = some eD := hD
    dsimp only
    rw [h1]
    rfl
  · intro create eF h1 h2
    rw [createEmail_of_ok st w create h1, emailResponse_world,
      emailResponse_of_error st _ _ eF h2]
    simp [edbCreateEmail]
  · intro entry e eF hE h1 h2
    rw [updateEmail_of_ok st w entry e hE h1]
    dsimp only
    rw [emailResponse_world, emailResponse_of_error st _ _ eF h2]
    simp [edbUpdateEmail]
  · intro delete eF h1 h2
    rw [deleteEmail_of_ok st w delete h1, emailResponse_world,
      emailResponse_of_error st _ _ eF h2]
    simp [edbDeleteEmail]

/-- C5, one operation at a time. On the reference Store (whose reads and
deletes never fail) a create of an address it already holds fails: the
handler returns the Store's error, no record, after the one create call. On a
Store all of whose calls fail with the error "disk", each of the five
operations returns "disk", no record, after one Store call; and when only its
reads fail, a create returns the read's error after two calls. -/
theorem store_failure_passthrough_witness :
    MailServer.CreateEmail modelStore sampleWorld ⟨"a@example.com"⟩ =
      ((⟨none⟩, some ⟨"address already exists"⟩),
        ⟨sampleWorld.db, sampleWorld.calls ++ [StoreCall.CreateEmail "a@example.com"]⟩) ∧
    MailServer.GetEmail (failingStore ⟨"disk"⟩) ⟨false, []⟩ ⟨"a@example.com"⟩ =
      ((⟨none⟩, some ⟨"disk"⟩), ⟨false, [] ++ [StoreCall.ReadEmail "a@example.com"]⟩) ∧
    MailServer.GetEmailBatch (failingStore ⟨"disk"⟩) ⟨false, []⟩ ⟨0, 10⟩ =
      ((⟨[]⟩, some ⟨"disk"⟩), ⟨false, [] ++ [StoreCall.GetEmailBatch ⟨0, 10⟩]⟩) ∧
    MailServer.CreateEmail (failingStore ⟨"disk"⟩) ⟨false, []⟩ ⟨"a@example.com"⟩ =
      ((⟨none⟩, some ⟨"disk"⟩), ⟨false, [] ++ [StoreCall.CreateEmail "a@example.com"]⟩) ∧
    MailServer.UpdateEmail (failingStore ⟨"disk"⟩) ⟨false, []⟩
        ⟨some ⟨1, "a@example.com", 5, true⟩⟩ =
      (Except.ok (⟨none⟩, some ⟨"disk"⟩),
        ⟨false, [] ++ [StoreCall.UpdateEmail ⟨1, "a@example.com", timeUnix 5 0, true⟩]⟩) ∧
    MailServer.DeleteEmail (failingStore ⟨"disk"⟩) ⟨false, []⟩ ⟨"a@example.com"⟩ =
      ((⟨none⟩, some ⟨"disk"⟩), ⟨false, [] ++ [StoreCall.DeleteEmail "a@example.com"]⟩) ∧
    (MailServer.CreateEmail (failingStore ⟨"disk"⟩) ⟨true, []⟩ ⟨"a@example.com"⟩).1 =
      (⟨none⟩, some ⟨"disk"⟩) ∧
    (MailServer.CreateEmail (failingStore ⟨"disk"⟩) ⟨true, []⟩ ⟨"a@example.com"⟩).2.calls =
      [] ++ [StoreCall.CreateEmail "a@example.com", StoreCall.ReadEmail "a@example.com"] :=
  ⟨(store_failure_passthrough modelStore sampleWorld).2.2.1 ⟨"a@example.com"⟩
      ⟨"address already exists"⟩ rfl,
    (store_failure_passthrough (failingStore ⟨"disk"⟩) ⟨false, []⟩).1 ⟨"a@example.com"⟩
      ⟨"disk"⟩ rfl,
    (store_failure_passthrough (failingStore ⟨"disk"⟩) ⟨false, []⟩).2.1 ⟨0, 10⟩ ⟨"disk"⟩ rfl,
    (store_failure_passthrough (failingStore ⟨"disk"⟩) ⟨false, []⟩).2.2.1 ⟨"a@example.com"⟩
      ⟨"disk"⟩ rfl,
    (store_failure_passthrough (failingStore ⟨"disk"⟩) ⟨false, []⟩).2.2.2.1
      ⟨1, "a@example.com", 5, true⟩ ⟨1, "a@example.com", timeUnix 5 0, true⟩ ⟨"disk"⟩ rfl rfl,
    (store_failure_passthrough (failingStore ⟨"disk"⟩) ⟨false, []⟩).2.2.2.2.1
      ⟨"a@example.com"⟩ ⟨"disk"⟩ rfl,
    (store_failure_passthrough (failingStore ⟨"disk"⟩) ⟨true, []⟩).2.2.2.2.2.1
      ⟨"a@example.com"⟩ ⟨"disk"⟩ rfl rfl⟩

/-! ## Handlers over a Store that keeps the contract -/

theorem contract_emailResponse {σ : Type} {st : Store σ}
    {view : σ → String → Option EdbEmailEntry} {unset : Time}
    (hS : StoreContract st view unset) (w : World σ) (a : String) :
    (emailResponse st w a).1 = ({ EmailEntry := (view w.db a).map edbEntryToPbEntry }, none) ∧
    ∀ b, view (emailResponse st w a).2.db b = view w.db b := by
  constructor
  · cases hv : view w.db a with
    | none =>
      rw [emailResponse_of_absent st w a (by rw [hS.read_result, hv])]
      rfl
    | some r =>
      rw [emailResponse_of_present st w a r (by rw [hS.read_result, hv])]
      rfl
  · intro b
    rw [emailResponse_world]
    exact hS.read_keeps w.db a b

theorem find_cons_pos {α : Type} (p : α → Bool) (x : α) (xs : List α) (h : p x = true) :
    (x :: xs).find? p = some x := by
  simp [List.find?, h]

theorem find_cons_neg {α : Type} (p : α → Bool) (x : α) (xs : List α) (h : ¬ p x = true) :
    (x :: xs).find? p = xs.find? p := by
  simp [List.find?, h]

theorem find_map_overwrite (rows : List EdbEmailEntry) (e : EdbEmailEntry)
    (h : rows.find? (fun r => r.Email == e.Email) ≠ none) :
    ∃ r, (rows.map (fun r => if r.Email == e.Email then
        { r with ConfirmedAt := e.ConfirmedAt, OptOut := e.OptOut } else r)).find?
          (fun r => r.Email == e.Email) = some r ∧
      r.Email = e.Email ∧ r.ConfirmedAt = e.ConfirmedAt ∧ r.OptOut = e.OptOut := by
  induction rows with
  | nil => exact absurd rfl h
  | cons x xs ih =>
    by_cases hx : x.Email = e.Email
    · refine ⟨{ x with ConfirmedAt := e.ConfirmedAt, OptOut := e.OptOut }, ?_, hx, rfl, rfl⟩
      have hb : (x.Email == e.Email) = true := by simp [hx]
      rw [List.map_cons, if_pos hb]
      exact find_cons_pos (fun r : EdbEmailEntry => r.Email == e.Email) _ _ hb
    · have hb : ¬ (x.Email == e.Email) = true := by simp [hx]
      rw [find_cons_neg (fun r : EdbEmailEntry => r.Email == e.Email) x xs hb] at h
      obtain ⟨r, hr, hrest⟩ := ih h
      refine ⟨r, ?_, hrest⟩
      rw [List.map_cons, if_neg hb, find_cons_neg (fun r : EdbEmailEntry => r.Email == e.Email) x _ hb]
      exact hr

theorem find_filter_ne (rows : List EdbEmailEntry) (a : String) :
    (rows.filter (fun r => r.Email != a)).find? (fun r => r.Email == a) = none := by
  rw [List.find?_eq_none]
  intro x hx
  have h := (List.mem_filter.1 hx).2
  simpa using h

theorem find_append_new (rows : List EdbEmailEntry) (x : EdbEmailEntry)
    (h : rows.find? (fun r => r.Email == x.Email) = none) :
    (rows ++ [x]).find? (fun r => r.Email == x.Email) = some x := by
  rw [List.find?_append, h]
  have hb : (x.Email == x.Email) = true := by simp
  rw [find_cons_pos (fun r : EdbEmailEntry => r.Email == x.Email) x [] hb]
  rfl

theorem modelStore_contract : StoreContract modelStore modelView unsetTime where
  read_result _ _ := rfl
  read_keeps _ _ _ := rfl
  page_keeps _ _ _ := rfl
  create_new := by
    intro s a hv _
    refine ⟨⟨s.nextId, a, unsetTime, false⟩, ?_, rfl, rfl, rfl⟩
    have hany : ¬ (s.rows.any (fun r => r.Email == a)) = true := by
      rw [List.any_eq_true]
      rintro ⟨x, hx, hxa⟩
      exact List.find?_eq_none.1 hv x hx hxa
    have hc : modelStore.CreateEmail s a =
        (none, { rows := s.rows ++ [⟨s.nextId, a, unsetTime, false⟩],
                 nextId := s.nextId + 1 }) := if_neg hany
    rw [hc]
    exact find_append_new s.rows ⟨s.nextId, a, unsetTime, false⟩ hv
  replace_existing := by
    intro s e hv
    exact ⟨rfl, find_map_overwrite s.rows e hv⟩
  delete_removes := by
    intro s a _
    exact find_filter_ne s.rows a

theorem createEmail_store_ok {σ : Type} (st : Store σ) (w : World σ) (req : CreateEmailRequest)
    (h : (MailServer.CreateEmail st w req).1.2 = none) :
    (st.CreateEmail w.db req.EmailAddr).1 = none := by
  cases hc : (st.CreateEmail w.db req.EmailAddr).1 with
  | none => rfl
  | some err =>
    have h1 : (edbCreateEmail st w req.EmailAddr).1 = some err := hc
    unfold MailServer.CreateEmail at h
    dsimp only at h
    rw [h1] at h
    exact absurd h (by simp)

theorem deleteEmail_store_ok {σ : Type} (st : Store σ) (w : World σ) (req : DeleteEmailRequest)
    (h : (MailServer.DeleteEmail st w req).1.2 = none) :
    (st.DeleteEmail w.db req.EmailAddr).1 = none := by
  cases hc : (st.DeleteEmail w.db req.EmailAddr).1 with
  | none => rfl
  | some err =>
    have h1 : (edbDeleteEmail st w req.EmailAddr).1 = some err := hc
    unfold MailServer.DeleteEmail at h
    dsimp only at h
    rw [h1] at h
    exact absurd h (by simp)

/-! ## C6: delete, then read -/

/-- C6: over a Store that keeps the contract, when `DeleteEmail(addr)` returns
no error, its own response carries no record, and a `GetEmail(addr)` run next
returns no record and no error. -/
theorem delete_then_get_absent {σ : Type} {st : Store σ}
    {view : σ → String → Option EdbEmailEntry} {unset : Time}
    (hS : StoreContract st view unset) (w : World σ) (addr : String)
    (hD : (MailServer.DeleteEmail st w ⟨addr⟩).1.2 = none) :
    (MailServer.DeleteEmail st w ⟨addr⟩).1 = ({ EmailEntry := none }, none) ∧
    (MailServer.GetEmail st (MailServer.DeleteEmail st w ⟨addr⟩).2 ⟨addr⟩).1 =
      ({ EmailEntry := none }, none) := by
  have hOk := deleteEmail_store_ok st w ⟨addr⟩ hD
  have hGone : view (edbDeleteEmail st w addr).2.db addr = none :=
    hS.delete_removes w.db addr hOk
  have hR := contract_emailResponse hS (edbDeleteEmail st w addr).2 addr
  rw [deleteEmail_of_ok st w ⟨addr⟩ hOk]
  refine ⟨by rw [hR.1, hGone]; rfl, ?_⟩
  unfold MailServer.GetEmail
  rw [(contract_emailResponse hS _ addr).1, hR.2 addr, hGone]
  rfl

/-- C6 on the reference Store holding "a@example.com": the record is there
before, and gone for the delete response and the read after it. -/
theorem delete_then_get_absent_witness :
    (MailServer.GetEmail modelStore sampleWorld ⟨"a@example.com"⟩).1 =
      (⟨some ⟨1, "a@example.com", 1600000000, false⟩⟩, none) ∧
    (MailServer.DeleteEmail modelStore sampleWorld ⟨"a@example.com"⟩).1 = (⟨none⟩, none) ∧
    (MailServer.GetEmail modelStore
      (MailServer.DeleteEmail modelStore sampleWorld ⟨"a@example.com"⟩).2
      ⟨"a@example.com"⟩).1 = (⟨none⟩, none) :=
  ⟨by decide, delete_then_get_absent modelStore_contract sampleWorld "a@example.com" rfl⟩

/-! ## C7: update replaces fully -/

/-- C7: over a Store that keeps the contract, for every address `addr` the
Store holds (whatever its record says), every signed 64-bit `t` and every
`id`, `UpdateEmail` with the wire record `(id, addr, t, true)` and the
`GetEmail(addr)` run next both return, without error, a record for `addr`
whose wire `confirmedAt` is `t` and whose `optOut` is true. -/
theorem update_then_get {σ : Type} {st : Store σ}
    {view : σ → String → Option EdbEmailEntry} {unset : Time}
    (hS : StoreContract st view unset) (w : World σ) (addr : String) (id t : Int)
    (ht : isInt64 t) (hX : view w.db addr ≠ none) :
    ∃ r : PbEmailEntry, r.Email = addr ∧ r.ConfirmedAt = t ∧ r.OptOut = true ∧
      (MailServer.UpdateEmail st w ⟨some ⟨id, addr, t, true⟩⟩).1 =
        Except.ok ({ EmailEntry := some r }, none) ∧
      (MailServer.GetEmail st (MailServer.UpdateEmail st w ⟨some ⟨id, addr, t, true⟩⟩).2
        ⟨addr⟩).1 = ({ EmailEntry := some r }, none) := by
  obtain ⟨hU, r0, hr0, hEmail, hTime, hOpt⟩ :=
    hS.replace_existing w.db ⟨id, addr, timeUnix t 0, true⟩ hX
  have hView : view (edbUpdateEmail st w ⟨id, addr, timeUnix t 0, true⟩).2.db addr = some r0 :=
    hr0
  have hR := contract_emailResponse hS (edbUpdateEmail st w ⟨id, addr, timeUnix t 0, true⟩).2 addr
  refine ⟨edbEntryToPbEntry r0, hEmail, ?_, hOpt, ?_, ?_⟩
  · show r0.ConfirmedAt.Unix = t
    rw [hTime]
    exact timeUnix_Unix t ht
  · rw [updateEmail_of_ok st w ⟨id, addr, t, true⟩ ⟨id, addr, timeUnix t 0, true⟩ rfl hU]
    dsimp only
    rw [hR.1, hView]
    rfl
  · rw [updateEmail_of_ok st w ⟨id, addr, t, true⟩ ⟨id, addr, timeUnix t 0, true⟩ rfl hU]
    unfold MailServer.GetEmail
    dsimp only
    rw [(contract_emailResponse hS _ addr).1, hR.2 addr, hView]
    rfl

/-- C7 on the reference Store holding "a@example.com" (confirmed at
`1600000000`, not opted out), updated with `t = 1700000000`. -/
theorem update_then_get_witness :
    (MailServer.GetEmail modelStore sampleWorld ⟨"a@example.com"⟩).1 =
      (⟨some ⟨1, "a@example.com", 1600000000, false⟩⟩, none) ∧
    ∃ r : PbEmailEntry, r.Email = "a@example.com" ∧ r.ConfirmedAt = 1700000000 ∧
      r.OptOut = true ∧
      (MailServer.UpdateEmail modelStore sampleWorld
        ⟨some ⟨0, "a@example.com", 1700000000, true⟩⟩).1 = Except.ok (⟨some r⟩, none) ∧
      (MailServer.GetEmail modelStore (MailServer.UpdateEmail modelStore sampleWorld
        ⟨some ⟨0, "a@example.com", 1700000000, true⟩⟩).2 ⟨"a@example.com"⟩).1 =
        (⟨some r⟩, none) :=
  ⟨by decide, update_then_get modelStore_contract sampleWorld "a@example.com" 0 1700000000
    (by decide) (by decide)⟩

/-! ## C8: create, then read -/

/-- C8: over a Store that keeps the contract, for every address `addr` the
Store does not hold, when `CreateEmail(addr)` returns no error its response
carries a record with email `addr`, the unset `confirmedAt` (in wire form) and
`optOut` false, and the `GetEmail(addr)` run next returns that same record. -/
theorem create_then_get {σ : Type} {st : Store σ}
    {view : σ → String → Option EdbEmailEntry} {unset : Time}
    (hS : StoreContract st view unset) (w : World σ) (addr : String)
    (hN : view w.db addr = none)
    (hC : (MailServer.CreateEmail st w ⟨addr⟩).1.2 = none) :
    ∃ r : PbEmailEntry, r.Email = addr ∧ r.ConfirmedAt = unset.Unix ∧ r.OptOut = false ∧
      (MailServer.CreateEmail st w ⟨addr⟩).1 = ({ EmailEntry := some r }, none) ∧
      (MailServer.GetEmail st (MailServer.CreateEmail st w ⟨addr⟩).2 ⟨addr⟩).1 =
        ({ EmailEntry := some r }, none) := by
  have hOk := createEmail_store_ok st w ⟨addr⟩ hC
  obtain ⟨r0, hr0, hEmail, hTime, hOpt⟩ := hS.create_new w.db addr hN hOk
  have hView : view (edbCreateEmail st w addr).2.db addr = some r0 := hr0
  have hR := contract_emailResponse hS (edbCreateEmail st w addr).2 addr
  refine ⟨edbEntryToPbEntry r0, hEmail, ?_, hOpt, ?_, ?_⟩
  · show r0.ConfirmedAt.Unix = unset.Unix
    rw [hTime]
  · rw [createEmail_of_ok st w ⟨addr⟩ hOk, hR.1, hView]
    rfl
  · rw [createEmail_of_ok st w ⟨addr⟩ hOk]
    unfold MailServer.GetEmail
    rw [(contract_emailResponse hS _ addr).1, hR.2 addr, hView]
    rfl

/-- C8 on the empty reference Store, whose unset `confirmedAt` is Go's zero
time. -/
theorem create_then_get_witness :
    ∃ r : PbEmailEntry, r.Email = "a@example.com" ∧ r.ConfirmedAt = unsetTime.Unix ∧
      r.OptOut = false ∧
      (MailServer.CreateEmail modelStore emptyWorld ⟨"a@example.com"⟩).1 = (⟨some r⟩, none) ∧
      (MailServer.GetEmail modelStore
        (MailServer.CreateEmail modelStore emptyWorld ⟨"a@example.com"⟩).2
        ⟨"a@example.com"⟩).1 = (⟨some r⟩, none) :=
  create_then_get modelStore_contract emptyWorld "a@example.com" rfl rfl

/-! ## C9: pagination -/

theorem foldl_convert (l : List EdbEmailEntry) (acc : List PbEmailEntry) :
    l.foldl (fun pbEntries e => pbEntries ++ [edbEntryToPbEntry e]) acc =
      acc ++ l.map edbEntryToPbEntry := by
  induction l generalizing acc with
  | nil => simp
  | cons x xs ih =>
    rw [List.foldl_cons, ih, List.map_cons, List.append_assoc]
    rfl

theorem convertEntries_eq_map (l : List EdbEmailEntry) :
    convertEntries l = l.map edbEntryToPbEntry := by
  unfold convertEntries
  rw [foldl_convert]
  rfl

theorem getEmailBatch_of_ok {σ : Type} (st : Store σ) (w : World σ) (req : GetEmailBatchRequest)
    (h : (st.GetEmailBatch w.db ⟨req.Page, req.Count⟩).1.2 = none) :
    (MailServer.GetEmailBatch st w req).1 =
      ({ EmailEntries :=
          (st.GetEmailBatch w.db ⟨req.Page, req.Count⟩).1.1.map edbEntryToPbEntry }, none) := by
  unfold MailServer.GetEmailBatch edbGetEmailBatch
  dsimp only
  rw [h, convertEntries_eq_map]

theorem paged_getEmailBatch {σ : Type} {st : Store σ} {listing : σ → List EdbEmailEntry}
    (hP : PagedStore st listing) (w : World σ) (page count : Int)
    (hp : 0 ≤ page) (hc : 0 < count) :
    (MailServer.GetEmailBatch st w ⟨page, count⟩).1 =
      ({ EmailEntries := (pageSlice (listing w.db) page count).map edbEntryToPbEntry }, none) := by
  have hr := hP.page_result w.db page count hp hc
  rw [getEmailBatch_of_ok st w ⟨page, count⟩ (by rw [hr]), hr]

theorem collectPages_eq {σ : Type} {st : Store σ} {listing : σ → List EdbEmailEntry}
    (hP : PagedStore st listing) (count : Int) (hc : 0 < count) (ps : List Nat) :
    ∀ w : World σ, (collectPages st count w ps).1 =
      (slicesFrom (listing w.db) count ps).map edbEntryToPbEntry := by
  induction ps with
  | nil => intro w; rfl
  | cons p ps ih =>
    intro w
    have hk : listing (MailServer.GetEmailBatch st w ⟨(p : Int), count⟩).2.db = listing w.db := by
      rw [getEmailBatch_world]
      exact hP.page_keeps w.db _
    show (MailServer.GetEmailBatch st w ⟨(p : Int), count⟩).1.1.EmailEntries ++
        (collectPages st count (MailServer.GetEmailBatch st w ⟨(p : Int), count⟩).2 ps).1 = _
    rw [ih, hk, paged_getEmailBatch hP w p count (Int.natCast_nonneg p) hc]
    simp [slicesFrom]

theorem pageSlice_nat (l : List EdbEmailEntry) (a c : Nat) :
    pageSlice l (a : Int) (c : Int) = (l.drop (a * c)).take c := by
  unfold pageSlice
  have h1 : ((a : Int) * (c : Int)).toNat = a * c := by
    rw [← Int.natCast_mul]
    exact Int.toNat_natCast _
  rw [h1, Int.toNat_natCast]

theorem slicesFrom_range (l : List EdbEmailEntry) (c : Nat) (k : Nat) :
    ∀ a : Nat, slicesFrom l (c : Int) (List.range' a k) = (l.drop (a * c)).take (k * c) := by
  induction k with
  | zero => intro a; simp [slicesFrom]
  | succ k ih =>
    intro a
    rw [List.range'_succ]
    show pageSlice l (a : Int) (c : Int) ++ slicesFrom l (c : Int) (List.range' (a + 1) k) = _
    rw [ih, pageSlice_nat]
    have h2 : (k + 1) * c = c + k * c := by ring
    have h3 : (a + 1) * c = a * c + c := by ring
    rw [h2, List.take_add, List.drop_drop, h3]

theorem ceil_pages_cover (n c : Nat) (hc : 0 < c) : n ≤ (n + c - 1) / c * c := by
  have h1 := Nat.div_add_mod (n + c - 1) c
  have h2 := Nat.mod_lt (n + c - 1) hc
  rw [Nat.mul_comm] at h1
  omega

theorem pageSlice_length (l : List EdbEmailEntry) (page count : Int)
    (hp : 0 ≤ page) (hc : 0 < count) :
    ((pageSlice l page count).length : Int) =
      min count (max 0 ((l.length : Int) - page * count)) := by
  unfold pageSlice
  rw [List.length_take, List.length_drop]
  have h0 : 0 ≤ page * count := Int.mul_nonneg hp (le_of_lt hc)
  generalize page * count = o at h0 ⊢
  omega

/-- C9: `GetEmailBatch` hands `page` and `count` to the Store as they are, in
one call, and when the Store returns no error its response is the wire
conversion of each record of the Store's page, in the Store's order and of the
same length. Hence over a Store whose page read returns the slice of its
listing at offset `page * count` of length at most `count`: for `page >= 0`
and `count > 0` the response has `min(count, max(0, N - page*count))` records,
`N` the length of the listing, and the responses for the pages
`0 .. ceil(N/count) - 1`, asked for one after the other and concatenated, are
the wire conversion of the listing, record for record. -/
theorem getEmailBatch_pagination {σ : Type} {st : Store σ} {listing : σ → List EdbEmailEntry}
    (hP : PagedStore st listing) (w : World σ) (page count : Int)
    (hp : 0 ≤ page) (hc : 0 < count) :
    (∀ (st2 : Store σ) (w2 : World σ) (req : GetEmailBatchRequest),
      (MailServer.GetEmailBatch st2 w2 req).2.calls =
        w2.calls ++ [StoreCall.GetEmailBatch ⟨req.Page, req.Count⟩] ∧
      ((st2.GetEmailBatch w2.db ⟨req.Page, req.Count⟩).1.2 = none →
        (MailServer.GetEmailBatch st2 w2 req).1 =
          ({ EmailEntries :=
            (st2.GetEmailBatch w2.db ⟨req.Page, req.Count⟩).1.1.map edbEntryToPbEntry }, none) ∧
        (MailServer.GetEmailBatch st2 w2 req).1.1.EmailEntries.length =
          (st2.GetEmailBatch w2.db ⟨req.Page, req.Count⟩).1.1.length)) ∧
    (MailServer.GetEmailBatch st w ⟨page, count⟩).1 =
      ({ EmailEntries := (pageSlice (listing w.db) page count).map edbEntryToPbEntry }, none) ∧
    ((MailServer.GetEmailBatch st w ⟨page, count⟩).1.1.EmailEntries.length : Int) =
      min count (max 0 (((listing w.db).length : Int) - page * count)) ∧
    (collectPages st count w
      (List.range (((listing w.db).length + count.toNat - 1) / count.toNat))).1 =
      (listing w.db).map edbEntryToPbEntry := by
  refine ⟨?_, paged_getEmailBatch hP w page count hp hc, ?_, ?_⟩
  · intro st2 w2 req
    refine ⟨by rw [getEmailBatch_world], ?_⟩
    intro h
    rw [getEmailBatch_of_ok st2 w2 req h]
    exact ⟨rfl, List.length_map _ _⟩
  · rw [paged_getEmailBatch hP w page count hp hc]
    show (((pageSlice (listing w.db) page count).map edbEntryToPbEntry).length : Int) = _
    rw [List.length_map]
    exact pageSlice_length _ page count hp hc
  · rw [collectPages_eq hP count hc]
    obtain ⟨c, rfl⟩ := Int.eq_ofNat_of_zero_le (le_of_lt hc)
    have hc2 : 0 < c := by omega
    rw [Int.toNat_natCast, List.range_eq_range', slicesFrom_range, Nat.zero_mul, List.drop_zero,
      List.take_of_length_le (ceil_pages_cover _ c hc2)]

theorem modelStore_paged : PagedStore modelStore (fun s => s.rows) where
  page_result _ _ _ _ _ := rfl
  page_keeps _ _ := rfl

/-- C9 on the reference Store holding three records, with pages of two: page 1
has one record, and pages 0 and 1 together give the three records in order. -/
theorem getEmailBatch_pagination_witness :
    ((MailServer.GetEmailBatch modelStore sampleWorld ⟨1, 2⟩).1.1.EmailEntries.length : Int) =
      min 2 (max 0 ((sampleWorld.db.rows.length : Int) - 1 * 2)) ∧
    (collectPages modelStore 2 sampleWorld
      (List.range ((sampleWorld.db.rows.length + (2 : Int).toNat - 1) / (2 : Int).toNat))).1 =
      sampleWorld.db.rows.map edbEntryToPbEntry ∧
    (MailServer.GetEmailBatch modelStore sampleWorld ⟨1, 2⟩).1 =
      (⟨[⟨3, "c@example.com", 1650000000, true⟩]⟩, none) :=
  ⟨(getEmailBatch_pagination modelStore_paged sampleWorld 1 2 (by decide) (by decide)).2.2.1,
    (getEmailBatch_pagination modelStore_paged sampleWorld 1 2 (by decide) (by decide)).2.2.2,
    by decide⟩

/-! ## C10: an update request without a record -/

/-- C10: for an update request that carries a record `UpdateEmail` returns (a
response and an error value); for a request whose record is nil the
conversion faults, `UpdateEmail` does not return, and the world is as before:
no Store call has been made. -/
theorem updateEmail_total_iff_record {σ : Type} (st : Store σ) (w : World σ) :
    (∀ entry : PbEmailEntry, ∃ r,
      (MailServer.UpdateEmail st w ⟨some entry⟩).1 = Except.ok r) ∧
    pbEntryToEdbEntry none = Except.error GoPanic.nilPointerDereference ∧
    MailServer.UpdateEmail st w ⟨none⟩ = (Except.error GoPanic.nilPointerDereference, w) := by
  refine ⟨?_, rfl, rfl⟩
  intro entry
  unfold MailServer.UpdateEmail pbEntryToEdbEntry
  dsimp only
  split
  · exact ⟨_, rfl⟩
  · exact ⟨_, rfl⟩

end Grpcapi
